import Mathlib

/-!
# Verification of the peer-presence registry of `inventor7/p2p`

Shallow embedding of the core P2P service (`internal/p2p/service.go`) of the
repository: the in-memory peer registry (`peers` / `superPeers` maps), the
liveness monitor, and the operations `RegisterPeer`, `ShareFile`,
`SearchSharedFiles`, `DisconnectPeer`, `UpdatePeerStatus`, `GetActivePeers`.

Modelling choices:
* Go `map[string]*PeerConnection` is modelled as an association list with
  the usual lookup / insert / erase operations (`mlookup`, `minsert`,
  `merase`).  Peer identifiers (opaque UUID strings in Go) are modelled as
  naturals; `uuid.New()` is modelled as an injective fresh-id supply (a
  counter threaded through the trace semantics).
* Time (`time.Time`, `time.Since`) is modelled as naturals counting seconds;
  `time.Since(p) > timeout` becomes `now - p > timeout` in truncated
  natural subtraction (durations are non-negative).
* The external GORM store is modelled by a `Db` record of the `users` and
  `files` tables; fallibility of a store call is an explicit `dbOk : Bool`
  input, and each operation additionally returns the list of store calls it
  attempted, so that "performs no persistence call" is expressible.
* The one-shot `Disconnect` channel of a `PeerConnection` is modelled by the
  list of stop signals an operation emits (closing the channel for id `i`
  emits `i`); the channel field itself carries no other observable state.
* MySQL `LIKE` under the default case-insensitive collation is modelled by
  an executable pattern matcher `likeMatch` over lower-cased character
  lists, honouring the `%` and `_` wildcards.
-/

set_option linter.unusedVariables false

namespace P2P

/-- P2P-relevant fields of `Config` (src/internal/config/config.go). -/
structure Config where
  maxPeers : Nat
  maxSuperPeers : Nat
  heartbeatInterval : Nat
  connectionTimeout : Nat
  maxFileSize : Int
deriving Repr, DecidableEq

/-- `db.User` (src/internal/db): the persisted peer record. -/
structure User where
  id : Nat
  username : String
  isSuper : Bool
  lastSeen : Nat
deriving Repr, DecidableEq

/-- `db.File` (src/internal/db): persisted file metadata. -/
structure File where
  id : Nat
  name : String
  type : String
  size : Int
  ownerId : Nat
  hash : String
deriving Repr, DecidableEq

/-- Association-list model of a Go `map` with `Nat` keys. -/
abbrev AssocMap (α : Type) := List (Nat × α)

/-- Go map read `m[k]`. -/
def mlookup {α : Type} : AssocMap α → Nat → Option α
  | [], _ => none
  | (k, v) :: rest, key => if k = key then some v else mlookup rest key

/-- Go map write `m[k] = v` (replaces the entry for `k`, else appends). -/
def minsert {α : Type} : AssocMap α → Nat → α → AssocMap α
  | [], key, v => [(key, v)]
  | (k, w) :: rest, key, v =>
      if k = key then (key, v) :: rest else (k, w) :: minsert rest key v

/-- Go map delete `delete(m, k)`. -/
def merase {α : Type} (m : AssocMap α) (key : Nat) : AssocMap α :=
  m.filter (fun p => p.1 != key)

/-- `PeerConnection` (service.go): live in-memory state of one peer.  The
`Disconnect` channel is modelled by the stop-signal lists emitted by the
operations rather than by a field. -/
structure PeerConnection where
  user : User
  ipAddress : String
  listenPort : Int
  lastPing : Nat
  files : AssocMap File
  isActive : Bool
deriving Repr, DecidableEq

/-- The in-memory state of `p2p.Service`: the two role-partitioned maps. -/
structure ServiceState where
  peers : AssocMap PeerConnection
  superPeers : AssocMap PeerConnection
deriving Repr, DecidableEq

/-- The external persisted store (the GORM-backed MySQL database). -/
structure Db where
  users : List User
  files : List File
deriving Repr, DecidableEq

/-- A call made to the external store by an operation. -/
inductive StoreCall
  | createUser (u : User)
  | createFile (f : File)
  | updateLastSeen (id : Nat) (t : Nat)
deriving Repr, DecidableEq

/-- Outcome of `DisconnectPeer`. -/
inductive DisconnectResult
  | ok
  | notFound
deriving Repr, DecidableEq

/-- Outcome of `UpdatePeerStatus` (heartbeat). -/
inductive HeartbeatResult
  | ok
  | notFound
  | storeError
deriving Repr, DecidableEq

/-- Outcome of `ShareFile`. -/
inductive ShareResult
  | ok
  | sizeExceeded
  | storeError
deriving Repr, DecidableEq

/-- `DisconnectPeer` (service.go lines 177-196): checks `superPeers` first,
then `peers`; on a hit closes the entry's stop channel (emitted in the third
component) and deletes the entry; otherwise returns "peer not found". -/
def DisconnectPeer (s : ServiceState) (peerID : Nat) :
    DisconnectResult × ServiceState × List Nat :=
  match mlookup s.superPeers peerID with
  | some _ => (.ok, { s with superPeers := merase s.superPeers peerID }, [peerID])
  | none =>
    match mlookup s.peers peerID with
    | some _ => (.ok, { s with peers := merase s.peers peerID }, [peerID])
    | none => (.notFound, s, [])

/-- The store-side effect of `Update("last_seen", now)` on the users table. -/
def dbUpdateLastSeen (db : Db) (peerID : Nat) (now : Nat) : Db :=
  { db with users := db.users.map (fun u => if u.id = peerID then { u with lastSeen := now } else u) }

/-- `UpdatePeerStatus` (service.go lines 223-242): first updates the
in-memory `LastPing` of the entry (regular peers checked before super
peers); if the id is absent returns "peer not found" before any store call;
otherwise attempts the store update, whose failure is surfaced as an error
AFTER the in-memory mutation has already happened. -/
def UpdatePeerStatus (s : ServiceState) (db : Db) (peerID : Nat) (now : Nat)
    (dbOk : Bool) : HeartbeatResult × ServiceState × Db × List StoreCall :=
  let memUpdated : Option ServiceState :=
    match mlookup s.peers peerID with
    | some peer => some { s with peers := minsert s.peers peerID { peer with lastPing := now } }
    | none =>
      match mlookup s.superPeers peerID with
      | some peer =>
          some { s with superPeers := minsert s.superPeers peerID { peer with lastPing := now } }
      | none => none
  match memUpdated with
  | none => (.notFound, s, db, [])
  | some s' =>
    if dbOk then (.ok, s', dbUpdateLastSeen db peerID now, [.updateLastSeen peerID now])
    else (.storeError, s', db, [.updateLastSeen peerID now])

/-- `RegisterPeer` (service.go lines 50-91): mints a fresh id (`uuid.New()`,
supplied here as `freshId`), persists the `User` record, and only on store
success creates the in-memory `PeerConnection` in the map selected by
`isSuper`.  `cfg` is the service's configuration, available to the method
but never consulted.  The monitor goroutine spawned for the new entry is
modelled separately (`monitorStep`). -/
def RegisterPeer (cfg : Config) (s : ServiceState) (db : Db) (freshId : Nat)
    (peerName ipAddress : String) (listenPort : Int) (isSuper : Bool)
    (now : Nat) (dbOk : Bool) :
    Option User × ServiceState × Db × List StoreCall :=
  let user : User := { id := freshId, username := peerName, isSuper := isSuper, lastSeen := now }
  if dbOk then
    let conn : PeerConnection :=
      { user := user, ipAddress := ipAddress, listenPort := listenPort,
        lastPing := now, files := [], isActive := true }
    if isSuper then
      (some user, { s with superPeers := minsert s.superPeers user.id conn },
        { db with users := db.users ++ [user] }, [.createUser user])
    else
      (some user, { s with peers := minsert s.peers user.id conn },
        { db with users := db.users ++ [user] }, [.createUser user])
  else (none, s, db, [.createUser user])

/-- `ShareFile` (service.go lines 94-113): rejects oversize files before any
store call; on store success updates the owner's file cache, but ONLY when
the owner is found in the regular `peers` map (the source never consults
`superPeers` here). -/
def ShareFile (cfg : Config) (s : ServiceState) (db : Db) (userID : Nat)
    (file : File) (dbOk : Bool) :
    ShareResult × ServiceState × Db × List StoreCall :=
  if file.size > cfg.maxFileSize then (.sizeExceeded, s, db, [])
  else if dbOk then
    let s' :=
      match mlookup s.peers userID with
      | some peer =>
          let cached : PeerConnection := { peer with files := minsert peer.files file.id file }
          { s with peers := minsert s.peers userID cached }
      | none => s
    (.ok, s', { db with files := db.files ++ [file] }, [.createFile file])
  else (.storeError, s, db, [.createFile file])

/-- Does `f` hold of some suffix (the list itself included) of the list? -/
def anySuffix (f : List Char → Bool) : List Char → Bool
  | [] => f []
  | c :: s => f (c :: s) || anySuffix f s

/-- SQL `LIKE` pattern matching over character lists: `%` matches any
(possibly empty) sequence (i.e. the rest of the pattern must match some
suffix of the subject), `_` any single character, anything else itself. -/
def likeMatch : List Char → List Char → Bool
  | [], s => s.isEmpty
  | '%' :: ps, s => anySuffix (likeMatch ps) s
  | '_' :: _, [] => false
  | '_' :: ps, _ :: s => likeMatch ps s
  | _ :: _, [] => false
  | c :: ps, c' :: s => (c == c') && likeMatch ps s

/-- MySQL `LIKE` under the default case-insensitive collation: both the
pattern and the subject are compared lower-cased. -/
def sqlLikeCI (pattern s : List Char) : Bool :=
  likeMatch (pattern.map Char.toLower) (s.map Char.toLower)

/-- The store query issued by `SearchSharedFiles` (service.go line 130):
`Where("name LIKE ?", "%"+query+"%")` — the pattern `'%' :: query.data ++
['%']` is the character data of the Go string `"%" + query + "%"`; only the
`name` column is compared. -/
def queryFilesByNameLike (db : Db) (query : String) : List File :=
  db.files.filter (fun f => sqlLikeCI ('%' :: (query.data ++ ['%'])) f.name.data)

/-- The owner lookup of `SearchSharedFiles` (service.go lines 140-148):
the `peers` map is consulted first; a hit counts only when `IsActive`;
otherwise the `superPeers` map is consulted the same way. -/
def findActiveConn (s : ServiceState) (ownerId : Nat) : Option PeerConnection :=
  match mlookup s.peers ownerId with
  | some p =>
    if p.isActive then some p
    else
      match mlookup s.superPeers ownerId with
      | some sp => if sp.isActive then some sp else none
      | none => none
  | none =>
    match mlookup s.superPeers ownerId with
    | some sp => if sp.isActive then some sp else none
    | none => none

/-- `FileSearchResult` (service.go): a file annotated with its owner's
contact information. -/
structure FileSearchResult where
  file : File
  peerIPAddress : String
  peerListenPort : Int
deriving Repr, DecidableEq

/-- `SearchSharedFiles` (service.go lines 123-161): queries the store by
name pattern (a failure of the query is surfaced as an error), then keeps
exactly the matches whose owner is found active, annotating each with the
owner's address and listen port; matches without an active owner are
skipped silently. -/
def SearchSharedFiles (s : ServiceState) (db : Db) (query : String)
    (dbOk : Bool) : Except Unit (List FileSearchResult) :=
  if dbOk then
    .ok ((queryFilesByNameLike db query).filterMap (fun file =>
      match findActiveConn s file.ownerId with
      | some conn =>
          some { file := file, peerIPAddress := conn.ipAddress,
                 peerListenPort := conn.listenPort }
      | none => none))
  else .error ()

/-- `GetActivePeersDTO` (service.go). -/
structure GetActivePeersDTO where
  id : Nat
  username : String
  isSuperClient : Bool
  ipAddress : String
  listenPort : Int
  lastSeen : Nat
deriving Repr, DecidableEq

/-- The DTO built for one connection by `GetActivePeers`. -/
def toActiveDTO (conn : PeerConnection) : GetActivePeersDTO :=
  { id := conn.user.id, username := conn.user.username,
    isSuperClient := conn.user.isSuper, ipAddress := conn.ipAddress,
    listenPort := conn.listenPort, lastSeen := conn.lastPing }

/-- `GetActivePeers` (service.go lines 262-294): lists the `IsActive`
connections of both maps, regular peers first. -/
def GetActivePeers (s : ServiceState) : List GetActivePeersDTO :=
  (s.peers.filter (fun p => p.2.isActive)).map (fun p => toActiveDTO p.2)
    ++ (s.superPeers.filter (fun p => p.2.isActive)).map (fun p => toActiveDTO p.2)

/-! ## Liveness monitor (service.go lines 199-220)

`monitorPeerConnection` is a goroutine looping on a ticker and the entry's
`Disconnect` channel.  It is modelled as a state machine per peer with the
states Active (looping), Reaping (the timeout check has fired and the
removal call is about to be made) and Terminated (the goroutine returned).
A step consumes an event and emits the list of registry-removal calls
(`DisconnectPeer` on the monitor's own id) it performs. -/

/-- States of one monitor task. -/
inductive MonState
  | active
  | reaping
  | terminated
deriving Repr, DecidableEq

/-- Events a monitor task can react to: a ticker tick at absolute time
`now`, or the one-shot stop signal from an external disconnect. -/
inductive MonEvent
  | tick (now : Nat)
  | stop
deriving Repr, DecidableEq

/-- One step of `monitorPeerConnection` for the peer `ownId` whose entry has
last-ping time `lastPing`.  On a tick in the Active state the code compares
`time.Since(LastPing)` with the connection timeout STRICTLY (`>`); on
expiry it performs the removal (the Reaping state, which then emits the
`DisconnectPeer` call on `ownId` and returns) and never loops again.  A
stop signal in the Active state returns immediately without any removal.
Terminated is absorbing. -/
def monitorStep (cfg : Config) (ownId : Nat) (lastPing : Nat) :
    MonState → MonEvent → MonState × List Nat
  | .active, .tick now =>
      if now - lastPing > cfg.connectionTimeout then (.reaping, []) else (.active, [])
  | .active, .stop => (.terminated, [])
  | .reaping, _ => (.terminated, [ownId])
  | .terminated, _ => (.terminated, [])

/-- Run a monitor over a list of events, collecting all removal calls. -/
def monitorRun (cfg : Config) (ownId : Nat) (lastPing : Nat) :
    MonState → List MonEvent → MonState × List Nat
  | st, [] => (st, [])
  | st, e :: es =>
    let (st', out) := monitorStep cfg ownId lastPing st e
    let (stF, outs) := monitorRun cfg ownId lastPing st' es
    (stF, out ++ outs)

/-! ## Trace semantics

The externally driven operations of the service, each applied at an
absolute time.  `Sys` packages the registry, the store and the fresh-id
counter modelling `uuid.New()`. -/

/-- Whole-system state: registry, persisted store, and the fresh-id supply
idealizing `uuid.New()`. -/
structure Sys where
  reg : ServiceState
  db : Db
  gen : Nat
deriving Repr, DecidableEq

/-- The initial state built by `NewService` (empty maps, empty store). -/
def initSys : Sys := { reg := { peers := [], superPeers := [] }, db := { users := [], files := [] }, gen := 0 }

/-- One externally driven operation on the service. -/
inductive Op
  | register (peerName ipAddress : String) (listenPort : Int) (isSuper : Bool) (dbOk : Bool)
  | heartbeat (id : Nat) (dbOk : Bool)
  | disconnect (id : Nat)
  | share (owner : Nat) (file : File) (dbOk : Bool)
deriving Repr, DecidableEq

/-- Result of one trace step: the new system state and, for a successful
registration, the id handed back to the caller. -/
structure StepOut where
  sys : Sys
  registeredId : Option Nat
deriving Repr, DecidableEq

/-- Apply one operation at absolute time `t`. -/
def applyOp (cfg : Config) (t : Nat) (sys : Sys) : Op → StepOut
  | .register peerName ipAddress listenPort isSuper dbOk =>
    let r := RegisterPeer cfg sys.reg sys.db sys.gen peerName ipAddress listenPort isSuper t dbOk
    { sys := { reg := r.2.1, db := r.2.2.1, gen := sys.gen + 1 },
      registeredId := r.1.map (fun u => u.id) }
  | .heartbeat id dbOk =>
    let r := UpdatePeerStatus sys.reg sys.db id t dbOk
    { sys := { sys with reg := r.2.1, db := r.2.2.1 }, registeredId := none }
  | .disconnect id =>
    let r := DisconnectPeer sys.reg id
    { sys := { sys with reg := r.2.1 }, registeredId := none }
  | .share owner file dbOk =>
    let r := ShareFile cfg sys.reg sys.db owner file dbOk
    { sys := { sys with reg := r.2.1, db := r.2.2.1 }, registeredId := none }

/-- Run a timestamped trace, collecting the ids returned by successful
registrations in order. -/
def runTrace (cfg : Config) : Sys → List (Nat × Op) → Sys × List Nat
  | sys, [] => (sys, [])
  | sys, (t, op) :: rest =>
    let out := applyOp cfg t sys op
    let r := runTrace cfg out.sys rest
    (r.1, out.registeredId.toList ++ r.2)

/-- The sequence of system states visited by a trace (initial state
included). -/
def traceStates (cfg : Config) : Sys → List (Nat × Op) → List Sys
  | sys, [] => [sys]
  | sys, (t, op) :: rest => sys :: traceStates cfg (applyOp cfg t sys op).sys rest

/-- The trace's timestamps are chronological, starting no earlier than the
given time. -/
def ChronoFrom : Nat → List (Nat × Op) → Prop
  | _, [] => True
  | t₀, (t, op) :: rest => t₀ ≤ t ∧ ChronoFrom t rest

/-! ## Association-map lemmas -/

theorem mlookup_minsert_self {α : Type} (m : AssocMap α) (k : Nat) (v : α) :
    mlookup (minsert m k v) k = some v := by
  induction m with
  | nil => simp [minsert, mlookup]
  | cons p rest ih =>
    obtain ⟨k₁, w⟩ := p
    by_cases h : k₁ = k
    · simp [minsert, h, mlookup]
    · simp [minsert, h, mlookup, ih]

theorem mlookup_minsert_ne {α : Type} (m : AssocMap α) (k k' : Nat) (v : α)
    (h : k' ≠ k) : mlookup (minsert m k v) k' = mlookup m k' := by
  induction m with
  | nil => simp [minsert, mlookup, Ne.symm h]
  | cons p rest ih =>
    obtain ⟨k₁, w⟩ := p
    by_cases hk : k₁ = k
    · subst hk
      simp [minsert, mlookup, Ne.symm h]
    · simp only [minsert, if_neg hk, mlookup]
      by_cases hk' : k₁ = k'
      · simp [hk']
      · simp [hk', ih]

theorem mlookup_merase_self {α : Type} (m : AssocMap α) (k : Nat) :
    mlookup (merase m k) k = none := by
  induction m with
  | nil => simp [merase, mlookup]
  | cons p rest ih =>
    obtain ⟨k₁, w⟩ := p
    by_cases h : k₁ = k
    · simpa [merase, List.filter_cons, bne_iff_ne, h] using ih
    · simpa [merase, List.filter_cons, bne_iff_ne, h, mlookup] using ih

theorem mlookup_merase_ne {α : Type} (m : AssocMap α) (k k' : Nat)
    (h : k' ≠ k) : mlookup (merase m k) k' = mlookup m k' := by
  induction m with
  | nil => simp [merase, mlookup]
  | cons p rest ih =>
    obtain ⟨k₁, w⟩ := p
    by_cases hk : k₁ = k
    · subst hk
      simpa [merase, List.filter_cons, bne_iff_ne, mlookup, Ne.symm h] using ih
    · by_cases hk' : k₁ = k'
      · simp [merase, List.filter_cons, bne_iff_ne, hk, hk', h, mlookup]
      · simpa [merase, List.filter_cons, bne_iff_ne, hk, hk', mlookup] using ih

theorem mlookup_mem {α : Type} (m : AssocMap α) (k : Nat) (v : α)
    (h : mlookup m k = some v) : (k, v) ∈ m := by
  induction m with
  | nil => simp [mlookup] at h
  | cons p rest ih =>
    obtain ⟨k₁, w⟩ := p
    by_cases hk : k₁ = k
    · subst hk
      simp [mlookup] at h
      simp [h]
    · simp only [mlookup, if_neg hk] at h
      exact List.mem_cons_of_mem _ (ih h)

/-! ## LIKE-matcher lemmas -/

theorem anySuffix_iff (f : List Char → Bool) (s : List Char) :
    anySuffix f s = true ↔ ∃ s', s' <:+ s ∧ f s' = true := by
  induction s with
  | nil =>
    simp only [anySuffix]
    constructor
    · intro h; exact ⟨[], List.nil_suffix, h⟩
    · rintro ⟨s', hs, hf⟩
      rw [List.suffix_nil.mp hs] at hf; exact hf
  | cons c s ih =>
    simp only [anySuffix, Bool.or_eq_true, ih]
    constructor
    · rintro (h | ⟨s', hs, hf⟩)
      · exact ⟨c :: s, List.suffix_refl _, h⟩
      · exact ⟨s', hs.trans (List.suffix_cons c s), hf⟩
    · rintro ⟨s', hs, hf⟩
      rcases List.suffix_cons_iff.mp hs with h | h
      · subst h; exact Or.inl hf
      · exact Or.inr ⟨s', h, hf⟩

theorem likeMatch_nil_iff (s : List Char) : likeMatch [] s = true ↔ s = [] := by
  cases s <;> simp [likeMatch]

theorem likeMatch_pct (ps s : List Char) :
    likeMatch ('%' :: ps) s = anySuffix (likeMatch ps) s := by
  rw [likeMatch.eq_def]
  cases s <;> rfl

theorem likeMatch_lit_nil {c : Char} (ps : List Char) (h1 : c ≠ '%') (h2 : c ≠ '_') :
    likeMatch (c :: ps) [] = false := by
  rw [likeMatch.eq_def]
  split <;> simp_all

theorem likeMatch_lit_cons {c : Char} (ps : List Char) (c' : Char) (s : List Char)
    (h1 : c ≠ '%') (h2 : c ≠ '_') :
    likeMatch (c :: ps) (c' :: s) = ((c == c') && likeMatch ps s) := by
  rw [likeMatch.eq_def]
  split <;> simp_all

/-- A wildcard-free pattern followed by `%` matches exactly the subjects it
prefixes. -/
theorem likeMatch_lit_append_pct (q : List Char)
    (hq : ∀ c ∈ q, c ≠ '%' ∧ c ≠ '_') (s : List Char) :
    (likeMatch (q ++ ['%']) s = true ↔ q <+: s) := by
  induction q generalizing s with
  | nil =>
    simp only [List.nil_append, likeMatch_pct, anySuffix_iff]
    constructor
    · intro _; exact List.nil_prefix
    · intro _; exact ⟨[], List.nil_suffix, by simp [likeMatch]⟩
  | cons c q ih =>
    have hc := hq c (List.mem_cons_self c q)
    have hq' : ∀ c' ∈ q, c' ≠ '%' ∧ c' ≠ '_' :=
      fun c' hc' => hq c' (List.mem_cons_of_mem c hc')
    cases s with
    | nil =>
      rw [List.cons_append, likeMatch_lit_nil _ hc.1 hc.2]
      simp
    | cons c' s =>
      rw [List.cons_append, likeMatch_lit_cons _ _ _ hc.1 hc.2]
      simp only [Bool.and_eq_true, beq_iff_eq, ih hq', List.cons_prefix_cons]

/-- The pattern `%q%` built by `SearchSharedFiles` matches exactly the
subjects containing the wildcard-free `q` as an infix. -/
theorem likeMatch_contains (q : List Char) (hq : ∀ c ∈ q, c ≠ '%' ∧ c ≠ '_')
    (s : List Char) :
    (likeMatch ('%' :: (q ++ ['%'])) s = true ↔ q <:+: s) := by
  rw [likeMatch_pct, anySuffix_iff]
  constructor
  · rintro ⟨s', hs, hf⟩
    exact List.infix_iff_prefix_suffix.mpr
      ⟨s', (likeMatch_lit_append_pct q hq s').mp hf, hs⟩
  · intro h
    obtain ⟨t, hpre, hsuf⟩ := List.infix_iff_prefix_suffix.mp h
    exact ⟨t, hsuf, (likeMatch_lit_append_pct q hq t).mpr hpre⟩

/-! ## Character lemmas for the case-insensitive collation -/

theorem toNat_ofNat_valid (n : Nat) (h : n.isValidChar) :
    (Char.ofNat n).toNat = n := by
  rw [Char.ofNat, dif_pos h]
  rfl

/-- `Char.toLower` only moves basic latin capitals (to `[97,122]`); any
character whose code is outside that target range is produced only by
itself. -/
theorem toLower_eq_nonletter {c w : Char}
    (hw : ¬(97 ≤ w.toNat ∧ w.toNat ≤ 122)) (h : c.toLower = w) : c = w := by
  unfold Char.toLower at h
  have h' : (if c.toNat ≥ 65 ∧ c.toNat ≤ 90 then Char.ofNat (c.toNat + 32) else c) = w := h
  clear h
  split at h'
  · rename_i hc
    exfalso
    have hv : (c.toNat + 32).isValidChar := Or.inl (by omega)
    have h2 := congrArg Char.toNat h'
    rw [toNat_ofNat_valid _ hv] at h2
    omega
  · exact h'

/-- Lower-casing a wildcard-free query keeps it wildcard-free. -/
theorem toLower_wildfree {q : List Char} (hq : ∀ c ∈ q, c ≠ '%' ∧ c ≠ '_') :
    ∀ c ∈ q.map Char.toLower, c ≠ '%' ∧ c ≠ '_' := by
  intro c hc
  rw [List.mem_map] at hc
  obtain ⟨a, ha, rfl⟩ := hc
  refine ⟨fun h => (hq a ha).1 ?_, fun h => (hq a ha).2 ?_⟩
  · exact toLower_eq_nonletter (by decide) h
  · exact toLower_eq_nonletter (by decide) h

instance {ε α : Type} [DecidableEq ε] [DecidableEq α] : DecidableEq (Except ε α) := fun x y =>
  match x, y with
  | .error e₁, .error e₂ =>
    if h : e₁ = e₂ then .isTrue (h ▸ rfl) else .isFalse (fun hh => h (Except.error.inj hh))
  | .error _, .ok _ => .isFalse (fun hh => Except.noConfusion hh)
  | .ok _, .error _ => .isFalse (fun hh => Except.noConfusion hh)
  | .ok a₁, .ok a₂ =>
    if h : a₁ = a₂ then .isTrue (h ▸ rfl) else .isFalse (fun hh => h (Except.ok.inj hh))

/-! ## The spec's notion of a search match -/

/-- Case-insensitive substring containment, the spec's wording of a match
(compared under the lower-casing collation model). -/
def containsCI (s q : String) : Bool :=
  decide ((q.data.map Char.toLower) <:+: (s.data.map Char.toLower))

/-- The selection the claim describes for step one of the search: the name
OR the type contains the query as a case-insensitive substring.  This is a
spec-side definition, to be compared with `queryFilesByNameLike`, the one
translated from the source. -/
def specNameOrTypeMatch (f : File) (q : String) : Bool :=
  containsCI f.name q || containsCI f.type q

/-- The query contains no SQL LIKE wildcard characters. -/
def NoWildcards (q : String) : Prop := ∀ c ∈ q.data, c ≠ '%' ∧ c ≠ '_'

/-- For a wildcard-free query the source's LIKE filter on the `name` column
is exactly case-insensitive substring containment on the name. -/
theorem sqlLikeCI_contains (q : String) (hq : NoWildcards q) (s : String) :
    (sqlLikeCI ('%' :: (q.data ++ ['%'])) s.data = true ↔ containsCI s q = true) := by
  unfold sqlLikeCI containsCI
  have hpct : ('%' : Char).toLower = '%' := by decide
  rw [List.map_cons, List.map_append, List.map_cons, List.map_nil, hpct]
  rw [likeMatch_contains _ (toLower_wildfree hq)]
  simp

/-! ## Registry well-formedness -/

/-- Every map entry is keyed by its own user id (true of all states the
service actually builds: `RegisterPeer` inserts under `user.ID`). -/
def WellKeyed (s : ServiceState) : Prop :=
  (∀ p ∈ s.peers, p.2.user.id = p.1) ∧ (∀ p ∈ s.superPeers, p.2.user.id = p.1)

/-- The `lastSeen` (`LastPing`) of the entry for `id`, the `peers` map
consulted first. -/
def lastPingOf (s : ServiceState) (id : Nat) : Option Nat :=
  match mlookup s.peers id with
  | some c => some c.lastPing
  | none => (mlookup s.superPeers id).map (fun c => c.lastPing)

/-- All entries of the registry have been pinged no later than `t`. -/
def PingsBounded (s : ServiceState) (t : Nat) : Prop :=
  (∀ p ∈ s.peers, p.2.lastPing ≤ t) ∧ (∀ p ∈ s.superPeers, p.2.lastPing ≤ t)

/-! ## Concrete fixtures -/

/-- A concrete configuration (timeout 5s, max file size 100 bytes). -/
def cfg0 : Config :=
  { maxPeers := 100, maxSuperPeers := 10, heartbeatInterval := 1,
    connectionTimeout := 5, maxFileSize := 100 }

/-- A registered regular peer. -/
def user1 : User := { id := 1, username := "alice", isSuper := false, lastSeen := 0 }

/-- The live connection of `user1`. -/
def conn1 : PeerConnection :=
  { user := user1, ipAddress := "10.0.0.1", listenPort := 4001,
    lastPing := 0, files := [], isActive := true }

/-- A registered super peer. -/
def user2 : User := { id := 2, username := "bob", isSuper := true, lastSeen := 0 }

/-- The live connection of `user2`. -/
def conn2 : PeerConnection :=
  { user := user2, ipAddress := "10.0.0.2", listenPort := 4002,
    lastPing := 0, files := [], isActive := true }

/-- A registry holding the single regular peer `user1`. -/
def s1 : ServiceState := { peers := [(1, conn1)], superPeers := [] }

/-- A registry holding the single super peer `user2`. -/
def s2 : ServiceState := { peers := [], superPeers := [(2, conn2)] }

/-- A persisted file whose type, but not name, contains "pdf". -/
def f0 : File :=
  { id := 10, name := "notes.txt", type := "pdf", size := 3, ownerId := 1, hash := "h" }

/-- A small persisted file owned by the super peer `user2`. -/
def fS : File :=
  { id := 11, name := "r.txt", type := "txt", size := 3, ownerId := 2, hash := "h2" }

/-- A store holding just `f0`. -/
def db0 : Db := { users := [], files := [f0] }

/-- The empty store. -/
def dbE : Db := { users := [], files := [] }

/-! ## Claim C2 -/

/-- C2 counterexample: the claim says the first step of the search selects
the persisted files whose name OR whose type contains the query
case-insensitively.  The persisted file `f0` has type "pdf" (and a name not
containing "pdf"), so under the claim it would be selected for the query
"pdf"; the source's store query (`name LIKE '%pdf%'`) selects nothing,
because only the `name` column is compared. -/
theorem C2_counterexample :
    specNameOrTypeMatch f0 "pdf" = true ∧ f0 ∈ db0.files ∧
      queryFilesByNameLike db0 "pdf" = [] := by
  refine ⟨by decide, by decide, by decide⟩

/-- C2 (amended): the first step of `SearchSharedFiles` selects exactly the
persisted files whose NAME matches the LIKE pattern `%q%` under the
case-insensitive collation; the type column is never consulted.  For a
query without LIKE wildcard characters this is precisely: the name contains
the query as a case-insensitive substring. -/
theorem C2_search_selects_by_name (db : Db) (q : String) (hq : NoWildcards q)
    (f : File) :
    f ∈ queryFilesByNameLike db q ↔ f ∈ db.files ∧ containsCI f.name q = true := by
  unfold queryFilesByNameLike
  rw [List.mem_filter, sqlLikeCI_contains q hq f.name]

/-- Witness for C2: the query "txt" (wildcard-free) selects `f0`, whose
name "notes.txt" contains it. -/
theorem C2_witness : f0 ∈ queryFilesByNameLike db0 "txt" :=
  (C2_search_selects_by_name db0 "txt" (by unfold NoWildcards; decide) f0).mpr
    ⟨by decide, by decide⟩

/-! ## Claim C4 -/

/-- C4: a file strictly larger than the configured maximum is rejected with
the size error before any persistence attempt: no store call is made, and
both the persisted store and the in-memory registry are returned
unchanged. -/
theorem C4_share_oversize_rejected (cfg : Config) (s : ServiceState) (db : Db)
    (userID : Nat) (file : File) (dbOk : Bool)
    (h : file.size > cfg.maxFileSize) :
    ShareFile cfg s db userID file dbOk = (.sizeExceeded, s, db, []) := by
  unfold ShareFile
  rw [if_pos h]

/-- Witness for C4: a 200-byte file against the 100-byte maximum of
`cfg0`. -/
theorem C4_witness :
    ShareFile cfg0 s1 db0 1
        { id := 12, name := "big.bin", type := "bin", size := 200, ownerId := 1, hash := "hb" }
        true =
      (.sizeExceeded, s1, db0, []) :=
  C4_share_oversize_rejected cfg0 s1 db0 1 _ true (by decide)

/-! ## Claim C5 -/

/-- C5 counterexample: the claim says a successful share updates the
owner's cache whenever the owner is present in the registry, whether
regular or super.  With the super peer `user2` present (as owner of `fS`,
within the size limit) the share succeeds and persists, but the registry is
returned unchanged: the super peer's file cache stays empty, because
`ShareFile` only consults the regular `peers` map. -/
theorem C5_counterexample :
    mlookup s2.superPeers 2 = some conn2 ∧
    ¬fS.size > cfg0.maxFileSize ∧
    ShareFile cfg0 s2 dbE 2 fS true =
      (.ok, s2, { users := [], files := [fS] }, [.createFile fS]) ∧
    conn2.files = [] := by
  refine ⟨by decide, by decide, by decide, by decide⟩

/-- C5 (amended): a successful `ShareFile` persists the record and then
updates the owning peer's cache only when the owner is present in the
REGULAR `peers` map; when the owner is absent from that map (not
registered, or registered as a super peer) the registry is left untouched,
the persisted write is not rolled back, and the share still returns
success. -/
theorem C5_share_cache_regular_only :
    (∀ (cfg : Config) (s : ServiceState) (db : Db) (uid : Nat) (file : File) (peer : PeerConnection),
      ¬file.size > cfg.maxFileSize →
      mlookup s.peers uid = some peer →
      ShareFile cfg s db uid file true =
        (.ok, { s with peers := minsert s.peers uid ({ peer with files := minsert peer.files file.id file }) }, { db with files := db.files ++ [file] }, [.createFile file])) ∧
    (∀ (cfg : Config) (s : ServiceState) (db : Db) (uid : Nat) (file : File),
      ¬file.size > cfg.maxFileSize →
      mlookup s.peers uid = none →
      ShareFile cfg s db uid file true =
        (.ok, s, { db with files := db.files ++ [file] }, [.createFile file])) := by
  constructor
  · intro cfg s db uid file peer h hl
    simp [ShareFile, h, hl]
  · intro cfg s db uid file h hl
    simp [ShareFile, h, hl]

/-- Witness for C5: sharing a small file owned by the regular peer `user1`
caches it in `conn1`; sharing `fS`, owned by nobody in the `peers` map,
persists without touching the registry. -/
theorem C5_witness :
    ShareFile cfg0 s1 dbE 1 f0 true =
      (.ok, { peers := [(1, { conn1 with files := [(10, f0)] })], superPeers := [] }, { users := [], files := [f0] }, [.createFile f0]) ∧
    ShareFile cfg0 s1 dbE 2 fS true =
      (.ok, s1, { users := [], files := [fS] }, [.createFile fS]) := by
  constructor
  · have h := C5_share_cache_regular_only.1 cfg0 s1 dbE 1 f0 conn1 (by decide) (by decide)
    rw [h]
    rfl
  · have h := C5_share_cache_regular_only.2 cfg0 s1 dbE 2 fS (by decide) (by decide)
    rw [h]
    rfl

/-! ## Claim C7 -/

/-- C7 counterexample: the claim says a heartbeat whose store update fails
leaves the in-memory registry (the entry's `LastPing`) unchanged.  In the
source the in-memory `LastPing` is assigned BEFORE the store call, so after
a failing heartbeat at time 5 the entry's ping has moved from 0 to 5 even
though the error is returned. -/
theorem C7_counterexample :
    (UpdatePeerStatus s1 dbE 1 5 false).1 = .storeError ∧
    lastPingOf s1 1 = some 0 ∧
    lastPingOf (UpdatePeerStatus s1 dbE 1 5 false).2.1 1 = some 5 := by
  refine ⟨by decide, by decide, by decide⟩

/-- C7 (amended): when the store update of a heartbeat fails, the error is
surfaced and the persisted store is unchanged, but the entry's `LastPing`
has already been set to the heartbeat time; nothing else of the registry
changes. -/
theorem C7_heartbeat_store_failure :
    (∀ (s : ServiceState) (db : Db) (id now : Nat) (peer : PeerConnection),
      mlookup s.peers id = some peer →
      UpdatePeerStatus s db id now false =
        (.storeError, { s with peers := minsert s.peers id ({ peer with lastPing := now }) }, db, [.updateLastSeen id now])) ∧
    (∀ (s : ServiceState) (db : Db) (id now : Nat) (peer : PeerConnection),
      mlookup s.peers id = none →
      mlookup s.superPeers id = some peer →
      UpdatePeerStatus s db id now false =
        (.storeError, { s with superPeers := minsert s.superPeers id ({ peer with lastPing := now }) }, db, [.updateLastSeen id now])) := by
  constructor
  · intro s db id now peer hl
    simp [UpdatePeerStatus, hl]
  · intro s db id now peer hl hsl
    simp [UpdatePeerStatus, hl, hsl]

/-- Witness for C7: a failing heartbeat for `user1` at time 5, and one for
the super peer `user2` at time 7. -/
theorem C7_witness :
    UpdatePeerStatus s1 dbE 1 5 false =
      (.storeError, { peers := [(1, { conn1 with lastPing := 5 })], superPeers := [] }, dbE, [.updateLastSeen 1 5]) ∧
    UpdatePeerStatus s2 dbE 2 7 false =
      (.storeError, { peers := [], superPeers := [(2, { conn2 with lastPing := 7 })] }, dbE, [.updateLastSeen 2 7]) := by
  constructor
  · have h := C7_heartbeat_store_failure.1 s1 dbE 1 5 conn1 (by decide)
    rw [h]
    rfl
  · have h := C7_heartbeat_store_failure.2 s2 dbE 2 7 conn2 (by decide) (by decide)
    rw [h]
    rfl

/-! ## Claim C8 -/

/-- Once a monitor task has terminated it never reacts again: no state
change, no removal calls, over any further event sequence. -/
theorem monitorRun_terminated (cfg : Config) (ownId lastPing : Nat)
    (es : List MonEvent) :
    monitorRun cfg ownId lastPing .terminated es = (.terminated, []) := by
  induction es with
  | nil => rfl
  | cons e es ih => simp [monitorRun, monitorStep, ih]

/-- C8 counterexample: the claim says a tick observing silence of AT LEAST
the connection timeout leads to a removal.  At silence exactly equal to the
timeout (5 seconds in `cfg0`, peer last pinged at 0, tick at 5) the source
compares with strict `>` and the monitor stays Active and emits no removal
call. -/
theorem C8_counterexample :
    5 - 0 ≥ cfg0.connectionTimeout ∧
    monitorStep cfg0 1 0 .active (.tick 5) = (.active, []) := by
  refine ⟨by decide, by decide⟩

/-- C8 (amended): over the monitor state machine {Active, Reaping,
Terminated}: a stop signal in Active terminates with no removal call; a
tick observing silence STRICTLY GREATER than the connection timeout leads
(through Reaping) to exactly one removal call for the monitor's own id and
then Terminated, regardless of subsequent events; a tick observing silence
at most the timeout leaves the monitor Active with no removal; Terminated
is absorbing, emitting nothing. -/
theorem C8_monitor_state_machine :
    (∀ (cfg : Config) (ownId lastPing : Nat),
      monitorStep cfg ownId lastPing .active .stop = (.terminated, [])) ∧
    (∀ (cfg : Config) (ownId lastPing now : Nat),
      now - lastPing ≤ cfg.connectionTimeout →
      monitorStep cfg ownId lastPing .active (.tick now) = (.active, [])) ∧
    (∀ (cfg : Config) (ownId lastPing now : Nat) (e : MonEvent) (es : List MonEvent),
      now - lastPing > cfg.connectionTimeout →
      monitorRun cfg ownId lastPing .active (.tick now :: e :: es) = (.terminated, [ownId])) ∧
    (∀ (cfg : Config) (ownId lastPing : Nat) (e : MonEvent),
      monitorStep cfg ownId lastPing .terminated e = (.terminated, [])) := by
  refine ⟨?_, ?_, ?_, ?_⟩
  · intro cfg o l
    rfl
  · intro cfg o l now h
    simp [monitorStep, Nat.not_lt.mpr h]
  · intro cfg o l now e es h
    simp [monitorRun, monitorStep, h, monitorRun_terminated]
  · intro cfg o l e
    cases e <;> rfl

/-- Witness for C8: concrete runs of the monitor of peer 1 under `cfg0`
(timeout 5): a stop, an in-time tick at 3, an expiring tick at 6 followed by
another event, and an event in the Terminated state. -/
theorem C8_witness :
    monitorStep cfg0 1 0 .active .stop = (.terminated, []) ∧
    monitorStep cfg0 1 0 .active (.tick 3) = (.active, []) ∧
    monitorRun cfg0 1 0 .active [.tick 6, .tick 7] = (.terminated, [1]) ∧
    monitorStep cfg0 1 0 .terminated .stop = (.terminated, []) :=
  ⟨C8_monitor_state_machine.1 cfg0 1 0,
   C8_monitor_state_machine.2.1 cfg0 1 0 3 (by decide),
   C8_monitor_state_machine.2.2.1 cfg0 1 0 6 (.tick 7) [] (by decide),
   C8_monitor_state_machine.2.2.2 cfg0 1 0 .stop⟩

/-! ## Claim C3 -/

/-- C3: disconnecting an id present in the registry (in exactly one of the
two role maps, as every reachable state has it) removes its entry, triggers
its stop signal exactly once (the emitted signal list is precisely `[id]`)
and returns ok; afterwards both maps are without the id, so a subsequent
heartbeat or second disconnect returns not-found and changes nothing.
Disconnecting an absent id returns not-found and leaves the state unchanged
with no signal. -/
theorem C3_disconnect_semantics :
    (∀ (s : ServiceState) (id : Nat) (c : PeerConnection),
      (mlookup s.peers id = some c ∨ mlookup s.superPeers id = some c) →
      (mlookup s.peers id = none ∨ mlookup s.superPeers id = none) →
      (DisconnectPeer s id).1 = .ok ∧ (DisconnectPeer s id).2.2 = [id] ∧
      mlookup (DisconnectPeer s id).2.1.peers id = none ∧
      mlookup (DisconnectPeer s id).2.1.superPeers id = none ∧
      DisconnectPeer (DisconnectPeer s id).2.1 id =
        (.notFound, (DisconnectPeer s id).2.1, []) ∧
      (∀ (db : Db) (now : Nat) (dbOk : Bool),
        UpdatePeerStatus (DisconnectPeer s id).2.1 db id now dbOk =
          (.notFound, (DisconnectPeer s id).2.1, db, []))) ∧
    (∀ (s : ServiceState) (id : Nat),
      mlookup s.peers id = none → mlookup s.superPeers id = none →
      DisconnectPeer s id = (.notFound, s, [])) := by
  constructor
  · intro s id c hpresent hdisj
    rcases hsp : mlookup s.superPeers id with _ | c₂
    · -- the super map misses the id, so the entry is the regular one
      have hp : mlookup s.peers id = some c := by
        rcases hpresent with h | h
        · exact h
        · rw [hsp] at h
          cases h
      have hd : DisconnectPeer s id = (.ok, { s with peers := merase s.peers id }, [id]) := by
        simp [DisconnectPeer, hsp, hp]
      rw [hd]
      refine ⟨rfl, rfl, mlookup_merase_self _ _, by simpa using hsp, ?_, ?_⟩
      · simp [DisconnectPeer, hsp, mlookup_merase_self]
      · intro db now dbOk
        simp [UpdatePeerStatus, hsp, mlookup_merase_self]
    · -- the super map holds the id; by disjointness the regular one is empty
      have hp : mlookup s.peers id = none := by
        rcases hdisj with h | h
        · exact h
        · rw [hsp] at h
          cases h
      have hd : DisconnectPeer s id = (.ok, { s with superPeers := merase s.superPeers id }, [id]) := by
        simp [DisconnectPeer, hsp]
      rw [hd]
      refine ⟨rfl, rfl, by simpa using hp, mlookup_merase_self _ _, ?_, ?_⟩
      · simp [DisconnectPeer, hp, mlookup_merase_self]
      · intro db now dbOk
        simp [UpdatePeerStatus, hp, mlookup_merase_self]
  · intro s id hp hsp
    simp [DisconnectPeer, hp, hsp]

/-- Witness for C3: disconnecting the present peer 1 in `s1` and the absent
id 7 in `s2`, then re-running heartbeat and disconnect on the removed id. -/
theorem C3_witness :
    (DisconnectPeer s1 1).1 = .ok ∧ (DisconnectPeer s1 1).2.2 = [1] ∧
    mlookup (DisconnectPeer s1 1).2.1.peers 1 = none ∧
    UpdatePeerStatus (DisconnectPeer s1 1).2.1 dbE 1 5 true =
      (.notFound, (DisconnectPeer s1 1).2.1, dbE, []) ∧
    DisconnectPeer (DisconnectPeer s1 1).2.1 1 =
      (.notFound, (DisconnectPeer s1 1).2.1, []) ∧
    DisconnectPeer s2 7 = (.notFound, s2, []) := by
  have h := C3_disconnect_semantics.1 s1 1 conn1 (Or.inl (by decide)) (Or.inr (by decide))
  exact ⟨h.1, h.2.1, h.2.2.1, h.2.2.2.2.2 dbE 5 true, h.2.2.2.2.1,
    C3_disconnect_semantics.2 s2 7 (by decide) (by decide)⟩

/-! ## Claim C1 -/

/-- A successful owner lookup during search yields an active connection
registered under that id in one of the two maps. -/
theorem findActiveConn_spec (s : ServiceState) (id : Nat) (conn : PeerConnection)
    (h : findActiveConn s id = some conn) :
    conn.isActive = true ∧
      (mlookup s.peers id = some conn ∨ mlookup s.superPeers id = some conn) := by
  unfold findActiveConn at h
  rcases hp : mlookup s.peers id with _ | p <;> rw [hp] at h <;> dsimp only at h
  · rcases hsp : mlookup s.superPeers id with _ | sp <;> rw [hsp] at h <;> dsimp only at h
    · cases h
    · by_cases ha : sp.isActive = true
      · rw [if_pos ha] at h
        obtain rfl := Option.some.inj h
        exact ⟨ha, Or.inr rfl⟩
      · rw [if_neg ha] at h
        cases h
  · by_cases ha : p.isActive = true
    · rw [if_pos ha] at h
      obtain rfl := Option.some.inj h
      exact ⟨ha, Or.inl rfl⟩
    · rw [if_neg ha] at h
      rcases hsp : mlookup s.superPeers id with _ | sp <;> rw [hsp] at h <;> dsimp only at h
      · cases h
      · by_cases ha2 : sp.isActive = true
        · rw [if_pos ha2] at h
          obtain rfl := Option.some.inj h
          exact ⟨ha2, Or.inr rfl⟩
        · rw [if_neg ha2] at h
          cases h

/-- An id registered to an active connection (in a well-keyed registry)
appears among the ids listed by `GetActivePeers`. -/
theorem mem_getActivePeers (s : ServiceState) (hk : WellKeyed s) (id : Nat)
    (conn : PeerConnection)
    (h : mlookup s.peers id = some conn ∨ mlookup s.superPeers id = some conn)
    (ha : conn.isActive = true) :
    id ∈ (GetActivePeers s).map (fun d => d.id) := by
  unfold GetActivePeers
  rw [List.map_append, List.mem_append]
  rcases h with h | h
  · left
    rw [List.map_map, List.mem_map]
    refine ⟨(id, conn), List.mem_filter.mpr ⟨mlookup_mem _ _ _ h, by simpa using ha⟩, ?_⟩
    simpa [toActiveDTO] using hk.1 (id, conn) (mlookup_mem _ _ _ h)
  · right
    rw [List.map_map, List.mem_map]
    refine ⟨(id, conn), List.mem_filter.mpr ⟨mlookup_mem _ _ _ h, by simpa using ha⟩, ?_⟩
    simpa [toActiveDTO] using hk.2 (id, conn) (mlookup_mem _ _ _ h)

/-- C1: with a healthy store, the search never errors; every returned
record's owner is present in the registry (regular or super map) with its
active flag set and appears in `GetActivePeers`, and the record carries
that owner's address and listen port; a queried file whose owner lookup
fails is dropped from the results silently. -/
theorem C1_search_returns_active_owners (s : ServiceState) (db : Db)
    (q : String) (hk : WellKeyed s) :
    (∃ results, SearchSharedFiles s db q true = .ok results) ∧
    (∀ (results : List FileSearchResult),
      SearchSharedFiles s db q true = .ok results →
      ∀ r ∈ results,
        ∃ conn,
          (mlookup s.peers r.file.ownerId = some conn ∨
            mlookup s.superPeers r.file.ownerId = some conn) ∧
          conn.isActive = true ∧
          r.peerIPAddress = conn.ipAddress ∧
          r.peerListenPort = conn.listenPort ∧
          r.file.ownerId ∈ (GetActivePeers s).map (fun d => d.id)) ∧
    (∀ (results : List FileSearchResult),
      SearchSharedFiles s db q true = .ok results →
      ∀ file ∈ queryFilesByNameLike db q,
        findActiveConn s file.ownerId = none →
        ∀ r ∈ results, r.file ≠ file) := by
  refine ⟨⟨_, rfl⟩, ?_, ?_⟩
  · intro results heq r hr
    have heq' : (queryFilesByNameLike db q).filterMap (fun file =>
        match findActiveConn s file.ownerId with
        | some conn =>
            some { file := file, peerIPAddress := conn.ipAddress,
                   peerListenPort := conn.listenPort }
        | none => none) = results := by
      have := heq
      unfold SearchSharedFiles at this
      simpa using this
    rw [← heq'] at hr
    rw [List.mem_filterMap] at hr
    obtain ⟨file, hfile, hfn⟩ := hr
    rcases hconn : findActiveConn s file.ownerId with _ | conn <;> rw [hconn] at hfn
    · cases hfn
    · obtain rfl := Option.some.inj hfn
      obtain ⟨ha, hw⟩ := findActiveConn_spec s file.ownerId conn hconn
      exact ⟨conn, hw, ha, rfl, rfl, mem_getActivePeers s hk _ conn hw ha⟩
  · intro results heq file hfile hnone r hr hrf
    have heq' : (queryFilesByNameLike db q).filterMap (fun file =>
        match findActiveConn s file.ownerId with
        | some conn =>
            some { file := file, peerIPAddress := conn.ipAddress,
                   peerListenPort := conn.listenPort }
        | none => none) = results := by
      have := heq
      unfold SearchSharedFiles at this
      simpa using this
    rw [← heq'] at hr
    rw [List.mem_filterMap] at hr
    obtain ⟨file', hfile', hfn⟩ := hr
    rcases hconn : findActiveConn s file'.ownerId with _ | conn <;> rw [hconn] at hfn
    · cases hfn
    · obtain rfl := Option.some.inj hfn
      have hff : file' = file := hrf
      rw [hff, hnone] at hconn
      cases hconn

/-- Witness for C1: searching "txt" in `db0` against the registry `s1`
returns exactly `f0` annotated with peer 1's address and port, and peer 1
is listed active. -/
theorem C1_witness :
    SearchSharedFiles s1 db0 "txt" true =
      .ok [{ file := f0, peerIPAddress := "10.0.0.1", peerListenPort := 4001 }] ∧
    f0.ownerId ∈ (GetActivePeers s1).map (fun d => d.id) := by
  have heq : SearchSharedFiles s1 db0 "txt" true =
      .ok [{ file := f0, peerIPAddress := "10.0.0.1", peerListenPort := 4001 }] := by
    decide
  refine ⟨heq, ?_⟩
  have hB := (C1_search_returns_active_owners s1 db0 "txt" ⟨by decide, by decide⟩).2.1
  obtain ⟨conn, _, _, _, _, hmem⟩ :=
    hB _ heq { file := f0, peerIPAddress := "10.0.0.1", peerListenPort := 4001 } (by simp)
  exact hmem

/-! ## Trace-level helper lemmas -/

theorem registerPeer_fst (cfg : Config) (s : ServiceState) (db : Db)
    (freshId : Nat) (n ip : String) (port : Int) (sup : Bool) (t : Nat)
    (dbOk : Bool) :
    (RegisterPeer cfg s db freshId n ip port sup t dbOk).1 =
      if dbOk then some { id := freshId, username := n, isSuper := sup, lastSeen := t }
      else none := by
  cases dbOk <;> cases sup <;> rfl

theorem runTrace_cons (cfg : Config) (sys : Sys) (t : Nat) (op : Op)
    (rest : List (Nat × Op)) :
    runTrace cfg sys ((t, op) :: rest) =
      ((runTrace cfg (applyOp cfg t sys op).sys rest).1,
       (applyOp cfg t sys op).registeredId.toList ++
         (runTrace cfg (applyOp cfg t sys op).sys rest).2) := rfl

theorem applyOp_register_registeredId (cfg : Config) (t : Nat) (sys : Sys)
    (n ip : String) (port : Int) (sup dbOk : Bool) :
    (applyOp cfg t sys (.register n ip port sup dbOk)).registeredId =
      if dbOk then some sys.gen else none := by
  cases dbOk <;> cases sup <;> rfl

theorem applyOp_register_gen (cfg : Config) (t : Nat) (sys : Sys)
    (n ip : String) (port : Int) (sup dbOk : Bool) :
    (applyOp cfg t sys (.register n ip port sup dbOk)).sys.gen = sys.gen + 1 := by
  cases dbOk <;> cases sup <;> rfl

theorem applyOp_gen_mono (cfg : Config) (t : Nat) (sys : Sys) (op : Op) :
    sys.gen ≤ (applyOp cfg t sys op).sys.gen := by
  cases op with
  | register n ip port sup dbOk => rw [applyOp_register_gen]; omega
  | heartbeat id dbOk => exact Nat.le_refl _
  | disconnect id => exact Nat.le_refl _
  | share owner file dbOk => exact Nat.le_refl _

theorem applyOp_nonreg_registeredId_heartbeat (cfg : Config) (t : Nat) (sys : Sys)
    (id : Nat) (dbOk : Bool) :
    (applyOp cfg t sys (.heartbeat id dbOk)).registeredId = none := rfl

theorem applyOp_nonreg_registeredId_disconnect (cfg : Config) (t : Nat) (sys : Sys)
    (id : Nat) :
    (applyOp cfg t sys (.disconnect id)).registeredId = none := rfl

theorem applyOp_nonreg_registeredId_share (cfg : Config) (t : Nat) (sys : Sys)
    (owner : Nat) (file : File) (dbOk : Bool) :
    (applyOp cfg t sys (.share owner file dbOk)).registeredId = none := by
  cases dbOk <;> rfl

/-- Every id a trace hands out is at least the starting fresh-id counter. -/
theorem runTrace_ids_ge (cfg : Config) :
    ∀ (ops : List (Nat × Op)) (sys : Sys) (i : Nat),
      i ∈ (runTrace cfg sys ops).2 → sys.gen ≤ i := by
  intro ops
  induction ops with
  | nil =>
    intro sys i h
    simp [runTrace] at h
  | cons p rest ih =>
    obtain ⟨t, op⟩ := p
    intro sys i h
    rw [runTrace_cons] at h
    rcases List.mem_append.mp h with h | h
    · cases op with
      | register n ip port sup dbOk =>
        rw [applyOp_register_registeredId] at h
        cases dbOk with
        | false => simp at h
        | true =>
          simp at h
          omega
      | heartbeat id dbOk => rw [applyOp_nonreg_registeredId_heartbeat] at h; simp at h
      | disconnect id => rw [applyOp_nonreg_registeredId_disconnect] at h; simp at h
      | share owner file dbOk => rw [applyOp_nonreg_registeredId_share] at h; simp at h
    · have h2 := ih (applyOp cfg t sys op).sys i h
      have h3 := applyOp_gen_mono cfg t sys op
      omega

/-- The ids handed out by a trace are pairwise distinct. -/
theorem runTrace_ids_nodup (cfg : Config) :
    ∀ (ops : List (Nat × Op)) (sys : Sys), ((runTrace cfg sys ops).2).Nodup := by
  intro ops
  induction ops with
  | nil => intro sys; simp [runTrace]
  | cons p rest ih =>
    obtain ⟨t, op⟩ := p
    intro sys
    rw [runTrace_cons]
    cases op with
    | register n ip port sup dbOk =>
      rw [applyOp_register_registeredId]
      cases dbOk with
      | false => simpa using ih _
      | true =>
        simp only [Option.toList_some, List.singleton_append]
        refine List.nodup_cons.mpr ⟨?_, ih _⟩
        intro hmem
        have h1 := runTrace_ids_ge cfg rest _ sys.gen hmem
        rw [applyOp_register_gen] at h1
        omega
    | heartbeat id dbOk =>
      rw [applyOp_nonreg_registeredId_heartbeat]
      simpa using ih _
    | disconnect id =>
      rw [applyOp_nonreg_registeredId_disconnect]
      simpa using ih _
    | share owner file dbOk =>
      rw [applyOp_nonreg_registeredId_share]
      simpa using ih _

/-! ## Claim C6 -/

/-- C6: a registration whose store write fails surfaces the failure (no
user is returned; only the attempted store call is visible) and leaves both
the registry and the store exactly as they were; a successful registration
returns a user carrying the fresh id and creates a brand-new entry under it
in the map selected by the role; and the ids returned by the successful
registrations of any trace are pairwise distinct (with `uuid.New()`
modelled as the fresh-id supply). -/
theorem C6_register_semantics :
    (∀ (cfg : Config) (s : ServiceState) (db : Db) (freshId : Nat) (n ip : String) (port : Int) (sup : Bool) (t : Nat),
      RegisterPeer cfg s db freshId n ip port sup t false =
        (none, s, db, [.createUser { id := freshId, username := n, isSuper := sup, lastSeen := t }])) ∧
    (∀ (cfg : Config) (s : ServiceState) (db : Db) (freshId : Nat) (n ip : String) (port : Int) (sup : Bool) (t : Nat),
      (RegisterPeer cfg s db freshId n ip port sup t true).1 =
        some { id := freshId, username := n, isSuper := sup, lastSeen := t } ∧
      mlookup
          (if sup then (RegisterPeer cfg s db freshId n ip port sup t true).2.1.superPeers
           else (RegisterPeer cfg s db freshId n ip port sup t true).2.1.peers) freshId =
        some { user := { id := freshId, username := n, isSuper := sup, lastSeen := t },
               ipAddress := ip, listenPort := port, lastPing := t, files := [],
               isActive := true }) ∧
    (∀ (cfg : Config) (sys : Sys) (ops : List (Nat × Op)),
      ((runTrace cfg sys ops).2).Nodup) := by
  refine ⟨?_, ?_, ?_⟩
  · intro cfg s db freshId n ip port sup t
    rfl
  · intro cfg s db freshId n ip port sup t
    cases sup <;> exact ⟨rfl, by simp [RegisterPeer, mlookup_minsert_self]⟩
  · intro cfg sys ops
    exact runTrace_ids_nodup cfg ops sys

/-- Witness for C6: a failing registration leaves `s1`/`db0` untouched; a
successful super-peer registration under the fresh id 5 creates its entry;
a concrete four-step trace from the empty system hands out distinct ids. -/
theorem C6_witness :
    RegisterPeer cfg0 s1 db0 5 "carol" "10.0.0.3" 4003 false 9 false =
      (none, s1, db0, [.createUser { id := 5, username := "carol", isSuper := false, lastSeen := 9 }]) ∧
    (RegisterPeer cfg0 s1 db0 5 "carol" "10.0.0.3" 4003 true 9 true).1 =
      some { id := 5, username := "carol", isSuper := true, lastSeen := 9 } ∧
    ((runTrace cfg0 initSys
        [(0, .register "a" "ip1" 1 false true), (1, .register "b" "ip2" 2 true true),
         (2, .heartbeat 0 true), (3, .register "c" "ip3" 3 false true)]).2).Nodup := by
  refine ⟨C6_register_semantics.1 cfg0 s1 db0 5 "carol" "10.0.0.3" 4003 false 9, ?_, ?_⟩
  · exact (C6_register_semantics.2.1 cfg0 s1 db0 5 "carol" "10.0.0.3" 4003 true 9).1
  · exact C6_register_semantics.2.2 cfg0 initSys _

/-! ## Claim C10 -/

/-- C10: no registry operation consults the configured `MaxPeers` or
`MaxSuperPeers`: two configurations agreeing on the other P2P fields
produce identical behaviour on every operation, and a registration whose
store write succeeds succeeds in every state, however many regular or super
peers are already present. -/
theorem C10_limits_never_consulted :
    (∀ (cfg₁ cfg₂ : Config),
      cfg₁.heartbeatInterval = cfg₂.heartbeatInterval →
      cfg₁.connectionTimeout = cfg₂.connectionTimeout →
      cfg₁.maxFileSize = cfg₂.maxFileSize →
      ∀ (t : Nat) (sys : Sys) (op : Op), applyOp cfg₁ t sys op = applyOp cfg₂ t sys op) ∧
    (∀ (cfg : Config) (s : ServiceState) (db : Db) (freshId : Nat) (n ip : String) (port : Int) (sup : Bool) (t : Nat),
      ((RegisterPeer cfg s db freshId n ip port sup t true).1).isSome = true) := by
  constructor
  · intro cfg₁ cfg₂ h1 h2 h3 t sys op
    cases op with
    | register n ip port sup dbOk => rfl
    | heartbeat id dbOk => rfl
    | disconnect id => rfl
    | share owner file dbOk => simp [applyOp, ShareFile, h3]
  · intro cfg s db freshId n ip port sup t
    cases sup <;> rfl

/-- Witness for C10: two configurations differing only in the peer limits
(limits 1 and 1000) act identically on a concrete share operation, and a
registration against the already-populated registry `s1` succeeds. -/
theorem C10_witness :
    applyOp { cfg0 with maxPeers := 1, maxSuperPeers := 1 } 4
        { reg := s1, db := db0, gen := 3 } (.share 1 fS true) =
      applyOp { cfg0 with maxPeers := 1000, maxSuperPeers := 1000 } 4
        { reg := s1, db := db0, gen := 3 } (.share 1 fS true) ∧
    ((RegisterPeer cfg0 s1 db0 5 "dave" "10.0.0.4" 4004 false 9 true).1).isSome = true := by
  constructor
  · exact C10_limits_never_consulted.1 _ _ rfl rfl rfl 4 _ _
  · exact C10_limits_never_consulted.2 cfg0 s1 db0 5 "dave" "10.0.0.4" 4004 false 9

/-! ## State characterizations of the operations -/

theorem updateStatus_state_peers (s : ServiceState) (db : Db) (id now : Nat)
    (dbOk : Bool) (peer : PeerConnection) (hp : mlookup s.peers id = some peer) :
    (UpdatePeerStatus s db id now dbOk).2.1 =
      { s with peers := minsert s.peers id { peer with lastPing := now } } := by
  cases dbOk <;> simp [UpdatePeerStatus, hp]

theorem updateStatus_state_super (s : ServiceState) (db : Db) (id now : Nat)
    (dbOk : Bool) (peer : PeerConnection) (hp : mlookup s.peers id = none)
    (hsp : mlookup s.superPeers id = some peer) :
    (UpdatePeerStatus s db id now dbOk).2.1 =
      { s with superPeers := minsert s.superPeers id { peer with lastPing := now } } := by
  cases dbOk <;> simp [UpdatePeerStatus, hp, hsp]

theorem updateStatus_state_none (s : ServiceState) (db : Db) (id now : Nat)
    (dbOk : Bool) (hp : mlookup s.peers id = none)
    (hsp : mlookup s.superPeers id = none) :
    (UpdatePeerStatus s db id now dbOk).2.1 = s := by
  cases dbOk <;> simp [UpdatePeerStatus, hp, hsp]

theorem disconnect_state_super (s : ServiceState) (id : Nat) (c : PeerConnection)
    (hsp : mlookup s.superPeers id = some c) :
    (DisconnectPeer s id).2.1 = { s with superPeers := merase s.superPeers id } := by
  simp [DisconnectPeer, hsp]

theorem disconnect_state_peers (s : ServiceState) (id : Nat) (c : PeerConnection)
    (hsp : mlookup s.superPeers id = none) (hp : mlookup s.peers id = some c) :
    (DisconnectPeer s id).2.1 = { s with peers := merase s.peers id } := by
  simp [DisconnectPeer, hsp, hp]

theorem disconnect_state_none (s : ServiceState) (id : Nat)
    (hp : mlookup s.peers id = none) (hsp : mlookup s.superPeers id = none) :
    (DisconnectPeer s id).2.1 = s := by
  simp [DisconnectPeer, hsp, hp]

theorem share_state_oversize (cfg : Config) (s : ServiceState) (db : Db)
    (uid : Nat) (file : File) (dbOk : Bool) (h : file.size > cfg.maxFileSize) :
    (ShareFile cfg s db uid file dbOk).2.1 = s := by
  simp [ShareFile, h]

theorem share_state_fail (cfg : Config) (s : ServiceState) (db : Db)
    (uid : Nat) (file : File) (h : ¬file.size > cfg.maxFileSize) :
    (ShareFile cfg s db uid file false).2.1 = s := by
  simp [ShareFile, h]

theorem share_state_cached (cfg : Config) (s : ServiceState) (db : Db)
    (uid : Nat) (file : File) (peer : PeerConnection)
    (h : ¬file.size > cfg.maxFileSize) (hp : mlookup s.peers uid = some peer) :
    (ShareFile cfg s db uid file true).2.1 =
      { s with peers := minsert s.peers uid ({ peer with files := minsert peer.files file.id file }) } := by
  simp [ShareFile, h, hp]

theorem share_state_nocache (cfg : Config) (s : ServiceState) (db : Db)
    (uid : Nat) (file : File) (h : ¬file.size > cfg.maxFileSize)
    (hp : mlookup s.peers uid = none) :
    (ShareFile cfg s db uid file true).2.1 = s := by
  simp [ShareFile, h, hp]

theorem register_state_fail (cfg : Config) (s : ServiceState) (db : Db)
    (freshId : Nat) (n ip : String) (port : Int) (sup : Bool) (t : Nat) :
    (RegisterPeer cfg s db freshId n ip port sup t false).2.1 = s := rfl

/-- The fresh connection a successful registration creates. -/
def newConn (freshId : Nat) (n ip : String) (port : Int) (sup : Bool) (t : Nat) :
    PeerConnection :=
  { user := { id := freshId, username := n, isSuper := sup, lastSeen := t },
    ipAddress := ip, listenPort := port, lastPing := t, files := [],
    isActive := true }

theorem register_state_regular (cfg : Config) (s : ServiceState) (db : Db)
    (freshId : Nat) (n ip : String) (port : Int) (t : Nat) :
    (RegisterPeer cfg s db freshId n ip port false t true).2.1 =
      { s with peers := minsert s.peers freshId (newConn freshId n ip port false t) } := rfl

theorem register_state_super (cfg : Config) (s : ServiceState) (db : Db)
    (freshId : Nat) (n ip : String) (port : Int) (t : Nat) :
    (RegisterPeer cfg s db freshId n ip port true t true).2.1 =
      { s with superPeers := minsert s.superPeers freshId (newConn freshId n ip port true t) } := rfl

theorem applyOp_reg_register (cfg : Config) (t : Nat) (sys : Sys) (n ip : String)
    (port : Int) (sup dbOk : Bool) :
    (applyOp cfg t sys (.register n ip port sup dbOk)).sys.reg =
      (RegisterPeer cfg sys.reg sys.db sys.gen n ip port sup t dbOk).2.1 := rfl

theorem applyOp_reg_heartbeat (cfg : Config) (t : Nat) (sys : Sys) (id : Nat)
    (dbOk : Bool) :
    (applyOp cfg t sys (.heartbeat id dbOk)).sys.reg =
      (UpdatePeerStatus sys.reg sys.db id t dbOk).2.1 := rfl

theorem applyOp_reg_disconnect (cfg : Config) (t : Nat) (sys : Sys) (id : Nat) :
    (applyOp cfg t sys (.disconnect id)).sys.reg = (DisconnectPeer sys.reg id).2.1 := rfl

theorem applyOp_reg_share (cfg : Config) (t : Nat) (sys : Sys) (owner : Nat)
    (file : File) (dbOk : Bool) :
    (applyOp cfg t sys (.share owner file dbOk)).sys.reg =
      (ShareFile cfg sys.reg sys.db owner file dbOk).2.1 := rfl

/-! ## `lastPingOf` under the map updates -/

theorem lastPingOf_peers_some (s : ServiceState) (id : Nat) (c : PeerConnection)
    (hp : mlookup s.peers id = some c) : lastPingOf s id = some c.lastPing := by
  simp [lastPingOf, hp]

theorem lastPingOf_peers_minsert (s : ServiceState) (k : Nat) (c : PeerConnection)
    (id : Nat) :
    lastPingOf { s with peers := minsert s.peers k c } id =
      if id = k then some c.lastPing else lastPingOf s id := by
  by_cases h : id = k
  · subst h
    simp [lastPingOf, mlookup_minsert_self]
  · simp [lastPingOf, mlookup_minsert_ne _ _ _ _ h, h]

theorem lastPingOf_superPeers_minsert_ne (s : ServiceState) (k : Nat)
    (c : PeerConnection) (id : Nat) (h : id ≠ k) :
    lastPingOf { s with superPeers := minsert s.superPeers k c } id = lastPingOf s id := by
  simp [lastPingOf, mlookup_minsert_ne _ _ _ _ h]

theorem lastPingOf_superPeers_minsert_self (s : ServiceState) (k : Nat)
    (c : PeerConnection) :
    lastPingOf { s with superPeers := minsert s.superPeers k c } k =
      (match mlookup s.peers k with
       | some p => some p.lastPing
       | none => some c.lastPing) := by
  rcases hp : mlookup s.peers k with _ | p <;> simp [lastPingOf, hp, mlookup_minsert_self]

theorem lastPingOf_peers_merase (s : ServiceState) (k id : Nat) (h : id ≠ k) :
    lastPingOf { s with peers := merase s.peers k } id = lastPingOf s id := by
  simp [lastPingOf, mlookup_merase_ne _ _ _ h]

theorem lastPingOf_superPeers_merase (s : ServiceState) (k id : Nat) (h : id ≠ k) :
    lastPingOf { s with superPeers := merase s.superPeers k } id = lastPingOf s id := by
  simp [lastPingOf, mlookup_merase_ne _ _ _ h]

theorem lastPingOf_peers_merase_self (s : ServiceState) (k : Nat)
    (hsp : mlookup s.superPeers k = none) :
    lastPingOf { s with peers := merase s.peers k } k = none := by
  simp [lastPingOf, mlookup_merase_self, hsp]

theorem lastPingOf_superPeers_merase_self (s : ServiceState) (k : Nat) :
    lastPingOf { s with superPeers := merase s.superPeers k } k =
      (match mlookup s.peers k with
       | some p => some p.lastPing
       | none => none) := by
  rcases hp : mlookup s.peers k with _ | p <;> simp [lastPingOf, hp, mlookup_merase_self]

/-! ## Boundedness of pings -/

theorem forall_minsert {α : Type} {P : Nat × α → Prop} (m : AssocMap α) (k : Nat)
    (v : α) (hm : ∀ p ∈ m, P p) (hv : P (k, v)) : ∀ p ∈ minsert m k v, P p := by
  induction m with
  | nil =>
    intro p hp
    simp [minsert] at hp
    subst hp
    exact hv
  | cons q rest ih =>
    obtain ⟨k₁, w⟩ := q
    intro p hp
    by_cases h : k₁ = k
    · rw [minsert, if_pos h] at hp
      rcases List.mem_cons.mp hp with rfl | hp
      · exact hv
      · exact hm p (List.mem_cons_of_mem _ hp)
    · rw [minsert, if_neg h] at hp
      rcases List.mem_cons.mp hp with rfl | hp
      · exact hm _ (List.mem_cons_self _ _)
      · exact ih (fun r hr => hm r (List.mem_cons_of_mem _ hr)) p hp

theorem forall_merase {α : Type} {P : Nat × α → Prop} (m : AssocMap α) (k : Nat)
    (hm : ∀ p ∈ m, P p) : ∀ p ∈ merase m k, P p := by
  intro p hp
  exact hm p (List.mem_of_mem_filter hp)

theorem pingsBounded_mono {s : ServiceState} {t t' : Nat} (h : PingsBounded s t)
    (ht : t ≤ t') : PingsBounded s t' :=
  ⟨fun p hp => Nat.le_trans (h.1 p hp) ht, fun p hp => Nat.le_trans (h.2 p hp) ht⟩

theorem pingsBounded_peers_minsert (s : ServiceState) (t : Nat) (k : Nat)
    (c : PeerConnection) (hB : PingsBounded s t) (hc : c.lastPing ≤ t) :
    PingsBounded { s with peers := minsert s.peers k c } t :=
  ⟨forall_minsert _ _ _ hB.1 hc, hB.2⟩

theorem pingsBounded_superPeers_minsert (s : ServiceState) (t : Nat) (k : Nat)
    (c : PeerConnection) (hB : PingsBounded s t) (hc : c.lastPing ≤ t) :
    PingsBounded { s with superPeers := minsert s.superPeers k c } t :=
  ⟨hB.1, forall_minsert _ _ _ hB.2 hc⟩

theorem pingsBounded_peers_merase (s : ServiceState) (t : Nat) (k : Nat)
    (hB : PingsBounded s t) :
    PingsBounded { s with peers := merase s.peers k } t :=
  ⟨forall_merase _ _ hB.1, hB.2⟩

theorem pingsBounded_superPeers_merase (s : ServiceState) (t : Nat) (k : Nat)
    (hB : PingsBounded s t) :
    PingsBounded { s with superPeers := merase s.superPeers k } t :=
  ⟨hB.1, forall_merase _ _ hB.2⟩

theorem lastPingOf_le (s : ServiceState) (t : Nat) (id : Nat) (a : Nat)
    (hB : PingsBounded s t) (ha : lastPingOf s id = some a) : a ≤ t := by
  rcases hp : mlookup s.peers id with _ | c
  · rcases hsp : mlookup s.superPeers id with _ | c
    · simp [lastPingOf, hp, hsp] at ha
    · have he : lastPingOf s id = some c.lastPing := by simp [lastPingOf, hp, hsp]
      rw [he] at ha
      obtain rfl := Option.some.inj ha
      exact hB.2 _ (mlookup_mem _ _ _ hsp)
  · have he : lastPingOf s id = some c.lastPing := lastPingOf_peers_some _ _ _ hp
    rw [he] at ha
    obtain rfl := Option.some.inj ha
    exact hB.1 _ (mlookup_mem _ _ _ hp)

/-- Applying any operation at time `t` keeps all pings bounded by `t`. -/
theorem applyOp_pingsBounded (cfg : Config) (t : Nat) (sys : Sys) (op : Op)
    (hB : PingsBounded sys.reg t) : PingsBounded (applyOp cfg t sys op).sys.reg t := by
  cases op with
  | register n ip port sup dbOk =>
    rw [applyOp_reg_register]
    cases dbOk with
    | false => rw [register_state_fail]; exact hB
    | true =>
      cases sup with
      | false =>
        rw [register_state_regular]
        refine pingsBounded_peers_minsert _ _ _ _ hB ?_
        exact Nat.le_refl t
      | true =>
        rw [register_state_super]
        refine pingsBounded_superPeers_minsert _ _ _ _ hB ?_
        exact Nat.le_refl t
  | heartbeat id dbOk =>
    rw [applyOp_reg_heartbeat]
    rcases hp : mlookup sys.reg.peers id with _ | peer
    · rcases hsp : mlookup sys.reg.superPeers id with _ | peer
      · rw [updateStatus_state_none _ _ _ _ _ hp hsp]; exact hB
      · rw [updateStatus_state_super _ _ _ _ _ _ hp hsp]
        refine pingsBounded_superPeers_minsert _ _ _ _ hB ?_
        exact Nat.le_refl t
    · rw [updateStatus_state_peers _ _ _ _ _ _ hp]
      refine pingsBounded_peers_minsert _ _ _ _ hB ?_
      exact Nat.le_refl t
  | disconnect id =>
    rw [applyOp_reg_disconnect]
    rcases hsp : mlookup sys.reg.superPeers id with _ | c
    · rcases hp : mlookup sys.reg.peers id with _ | c
      · rw [disconnect_state_none _ _ hp hsp]; exact hB
      · rw [disconnect_state_peers _ _ _ hsp hp]
        exact pingsBounded_peers_merase _ _ _ hB
    · rw [disconnect_state_super _ _ _ hsp]
      exact pingsBounded_superPeers_merase _ _ _ hB
  | share owner file dbOk =>
    rw [applyOp_reg_share]
    by_cases hsz : file.size > cfg.maxFileSize
    · rw [share_state_oversize _ _ _ _ _ _ hsz]; exact hB
    · cases dbOk with
      | false => rw [share_state_fail _ _ _ _ _ hsz]; exact hB
      | true =>
        rcases hp : mlookup sys.reg.peers owner with _ | peer
        · rw [share_state_nocache _ _ _ _ _ hsz hp]; exact hB
        · rw [share_state_cached _ _ _ _ _ _ hsz hp]
          refine pingsBounded_peers_minsert _ _ _ _ hB ?_
          exact hB.1 _ (mlookup_mem _ _ _ hp)

/-- One operation applied at a time no earlier than every stored ping can
only keep or raise the ping of a surviving entry. -/
theorem applyOp_ping_mono (cfg : Config) (t : Nat) (sys : Sys) (op : Op)
    (hB : PingsBounded sys.reg t) (id a b : Nat)
    (ha : lastPingOf sys.reg id = some a)
    (hb : lastPingOf (applyOp cfg t sys op).sys.reg id = some b) : a ≤ b := by
  have hat : a ≤ t := lastPingOf_le _ _ _ _ hB ha
  cases op with
  | register n ip port sup dbOk =>
    rw [applyOp_reg_register] at hb
    cases dbOk with
    | false =>
      rw [register_state_fail, ha] at hb
      have := Option.some.inj hb
      omega
    | true =>
      cases sup with
      | false =>
        rw [register_state_regular, lastPingOf_peers_minsert] at hb
        by_cases hid : id = sys.gen
        · rw [if_pos hid] at hb
          have hbt : t = b := Option.some.inj hb
          omega
        · rw [if_neg hid, ha] at hb
          have := Option.some.inj hb
          omega
      | true =>
        rw [register_state_super] at hb
        by_cases hid : id = sys.gen
        · subst hid
          rw [lastPingOf_superPeers_minsert_self] at hb
          rcases hp : mlookup sys.reg.peers sys.gen with _ | p <;> rw [hp] at hb <;> dsimp only at hb
          · have hbt : t = b := Option.some.inj hb
            omega
          · rw [lastPingOf_peers_some _ _ _ hp] at ha
            have h1 := Option.some.inj ha
            have h2 := Option.some.inj hb
            omega
        · rw [lastPingOf_superPeers_minsert_ne _ _ _ _ hid, ha] at hb
          have := Option.some.inj hb
          omega
  | heartbeat hid dbOk =>
    rw [applyOp_reg_heartbeat] at hb
    rcases hp : mlookup sys.reg.peers hid with _ | peer
    · rcases hsp : mlookup sys.reg.superPeers hid with _ | peer
      · rw [updateStatus_state_none _ _ _ _ _ hp hsp, ha] at hb
        have := Option.some.inj hb
        omega
      · rw [updateStatus_state_super _ _ _ _ _ _ hp hsp] at hb
        by_cases hh : id = hid
        · subst hh
          rw [lastPingOf_superPeers_minsert_self, hp] at hb
          dsimp only at hb
          have hbt : t = b := Option.some.inj hb
          omega
        · rw [lastPingOf_superPeers_minsert_ne _ _ _ _ hh, ha] at hb
          have := Option.some.inj hb
          omega
    · rw [updateStatus_state_peers _ _ _ _ _ _ hp, lastPingOf_peers_minsert] at hb
      by_cases hh : id = hid
      · rw [if_pos hh] at hb
        have hbt : t = b := Option.some.inj hb
        omega
      · rw [if_neg hh, ha] at hb
        have := Option.some.inj hb
        omega
  | disconnect did =>
    rw [applyOp_reg_disconnect] at hb
    rcases hsp : mlookup sys.reg.superPeers did with _ | c
    · rcases hp : mlookup sys.reg.peers did with _ | c
      · rw [disconnect_state_none _ _ hp hsp, ha] at hb
        have := Option.some.inj hb
        omega
      · rw [disconnect_state_peers _ _ _ hsp hp] at hb
        by_cases hh : id = did
        · subst hh
          rw [lastPingOf_peers_merase_self _ _ hsp] at hb
          exact Option.noConfusion hb
        · rw [lastPingOf_peers_merase _ _ _ hh, ha] at hb
          have := Option.some.inj hb
          omega
    · rw [disconnect_state_super _ _ _ hsp] at hb
      by_cases hh : id = did
      · subst hh
        rw [lastPingOf_superPeers_merase_self] at hb
        rcases hp : mlookup sys.reg.peers id with _ | p <;> rw [hp] at hb <;> dsimp only at hb
        · exact Option.noConfusion hb
        · rw [lastPingOf_peers_some _ _ _ hp] at ha
          have h1 := Option.some.inj ha
          have h2 := Option.some.inj hb
          omega
      · rw [lastPingOf_superPeers_merase _ _ _ hh, ha] at hb
        have := Option.some.inj hb
        omega
  | share owner file dbOk =>
    rw [applyOp_reg_share] at hb
    by_cases hsz : file.size > cfg.maxFileSize
    · rw [share_state_oversize _ _ _ _ _ _ hsz, ha] at hb
      have := Option.some.inj hb
      omega
    · cases dbOk with
      | false =>
        rw [share_state_fail _ _ _ _ _ hsz, ha] at hb
        have := Option.some.inj hb
        omega
      | true =>
        rcases hp : mlookup sys.reg.peers owner with _ | peer
        · rw [share_state_nocache _ _ _ _ _ hsz hp, ha] at hb
          have := Option.some.inj hb
          omega
        · rw [share_state_cached _ _ _ _ _ _ hsz hp, lastPingOf_peers_minsert] at hb
          by_cases hh : id = owner
          · rw [if_pos hh] at hb
            subst hh
            rw [lastPingOf_peers_some _ _ _ hp] at ha
            have h1 := Option.some.inj ha
            have h2 : peer.lastPing = b := Option.some.inj hb
            omega
          · rw [if_neg hh, ha] at hb
            have := Option.some.inj hb
            omega

/-! ## Claim C9 -/

/-- Adjacent system states with non-decreasing pings for every surviving
entry. -/
def PingMono (s₁ s₂ : Sys) : Prop :=
  ∀ id a b, lastPingOf s₁.reg id = some a → lastPingOf s₂.reg id = some b → a ≤ b

theorem traceStates_cons (cfg : Config) (sys : Sys) (t : Nat) (op : Op)
    (rest : List (Nat × Op)) :
    traceStates cfg sys ((t, op) :: rest) =
      sys :: traceStates cfg (applyOp cfg t sys op).sys rest := rfl

/-- C9: along any chronologically timestamped trace of operations, started
from a registry whose pings do not exceed the start time, the `lastPing` of
an entry never decreases between consecutive states in which the entry
exists (registration and share do not lower it, and the only mutation — a
heartbeat — writes the current time, which is no earlier than the stored
value). -/
theorem C9_lastPing_monotone (cfg : Config) :
    ∀ (ops : List (Nat × Op)) (sys : Sys) (t₀ : Nat),
      PingsBounded sys.reg t₀ → ChronoFrom t₀ ops →
      List.Chain' PingMono (traceStates cfg sys ops) := by
  intro ops
  induction ops with
  | nil =>
    intro sys t₀ hB hC
    simp [traceStates]
  | cons p rest ih =>
    obtain ⟨t, op⟩ := p
    intro sys t₀ hB hC
    obtain ⟨ht, hC'⟩ := hC
    have hBt : PingsBounded sys.reg t := pingsBounded_mono hB ht
    have hB' : PingsBounded (applyOp cfg t sys op).sys.reg t :=
      applyOp_pingsBounded cfg t sys op hBt
    have hch := ih (applyOp cfg t sys op).sys t hB' hC'
    rw [traceStates_cons]
    refine List.chain'_cons'.mpr ⟨?_, hch⟩
    intro y hy
    have hhead : (traceStates cfg (applyOp cfg t sys op).sys rest).head? =
        some (applyOp cfg t sys op).sys := by
      cases rest <;> rfl
    rw [hhead] at hy
    obtain rfl : (applyOp cfg t sys op).sys = y := by simpa using hy
    intro id a b hai hbi
    exact applyOp_ping_mono cfg t sys op hBt id a b hai hbi

/-- Witness for C9: a trace heartbeating peer 1 at times 2 and 4 (the
second heartbeat's store call failing) and disconnecting it at time 6,
started from the registry `s1` whose only ping is 0. -/
theorem C9_witness :
    List.Chain' PingMono
      (traceStates cfg0 { reg := s1, db := db0, gen := 3 }
        [(2, .heartbeat 1 true), (4, .heartbeat 1 false), (6, .disconnect 1)]) :=
  C9_lastPing_monotone cfg0
    [(2, .heartbeat 1 true), (4, .heartbeat 1 false), (6, .disconnect 1)]
    { reg := s1, db := db0, gen := 3 } 0 ⟨by decide, by decide⟩
    ⟨by decide, by decide, by decide, trivial⟩

end P2P
